import Mathlib

set_option maxRecDepth 20000

/-!
Shallow embedding of the collaborative-editing core in
`src/unnamed/part_000` (the web app component): the document tree model,
the heading index (`readHeadings`), the fingerprint function (`hashDoc`),
the operation application engine (`applyAiOps`) and the reconciliation
step of `handleAiEdit` / `handleChatSend`.

The document tree is the ProseMirror document held by the editor.  For the
fragment of the schema the engine inspects (top-level block nodes, with
headings carrying a level attribute and inline text), we model the tree as
a list of blocks.  ProseMirror position arithmetic is kept: every block
node occupies `textLength + 2` positions (an opening and a closing token
around its inline content), a node's `pos` is the sum of the sizes of the
blocks before it, and `doc.content.size` is the total sum.

The editing surface (tiptap commands such as `insertContentAt` and
`editor.commands.command`) is external to the repository; each command is
modelled with its documented behaviour plus a `Surface` record of booleans
saying whether the surface accepts the command (a rejected command returns
`false` and leaves the document unchanged, which is exactly the behaviour
the engine's call sites test for).
-/

/-- JavaScript whitespace for `trim` / `trimStart` / `\s` (ASCII part). -/
def isJsWs (c : Char) : Bool :=
  c == ' ' || c == '\t' || c == '\n' || c == '\r' || c == '\x0b' || c == '\x0c'

/-- `String.prototype.trim` on a character list. -/
def trimCharsList (cs : List Char) : List Char :=
  ((cs.dropWhile isJsWs).reverse.dropWhile isJsWs).reverse

/-- `String.prototype.trim`. -/
def trimChars (s : String) : String :=
  String.mk (trimCharsList s.toList)

/-- A top-level block node of the document tree: either a heading with its
level attribute and inline text, or any other block (paragraph-like) with
inline text. -/
inductive Block where
  | heading (level : Nat) (text : String)
  | paragraph (text : String)
deriving DecidableEq

/-- ProseMirror `nodeSize` of a block node: inline length plus the two
surrounding tokens. -/
def Block.nodeSize : Block → Nat
  | .heading _ t => t.length + 2
  | .paragraph t => t.length + 2

/-- Replace a block's inline text, keeping its kind and attributes. -/
def Block.withText : Block → String → Block
  | .heading lv _, s => .heading lv s
  | .paragraph _, s => .paragraph s

/-- Total size of a list of blocks; `editor.state.doc.content.size`. -/
def sizeSum : List Block → Nat
  | [] => 0
  | b :: bs => b.nodeSize + sizeSum bs

/-- One entry produced by the engine's `readHeadings` helper:
`{ pos, level, text: node.textContent.trim(), nodeSize }`. -/
structure HeadingEntry where
  pos : Nat
  level : Nat
  text : String
  nodeSize : Nat
deriving DecidableEq

/-- `readHeadings` walking the blocks from a base position:
`editor.state.doc.descendants` visits each block at its position and the
engine collects the heading nodes in document order. -/
def readHeadingsAux : List Block → Nat → List HeadingEntry
  | [], _ => []
  | b :: bs, p =>
    match b with
    | .heading lv tx => ⟨p, lv, trimChars tx, b.nodeSize⟩ :: readHeadingsAux bs (p + b.nodeSize)
    | .paragraph _ => readHeadingsAux bs (p + b.nodeSize)

/-- The engine's `readHeadings()`: the heading index of the current doc. -/
def readHeadings (d : List Block) : List HeadingEntry :=
  readHeadingsAux d 0

/-- The target filter used by every heading-addressed operation:
`heading.text === headingText` and, when a level is given,
`heading.level === op.level`. -/
def matchesOp (key : String) (lvl : Option Nat) (h : HeadingEntry) : Bool :=
  h.text == key &&
    (match lvl with
     | some l => h.level == l
     | none => true)

/-- `headings.find(...)` together with
`headings.slice(headings.indexOf(target) + 1)`: returns the first entry
satisfying the filter and the entries after it.  (`indexOf` of the element
returned by `find` is its index, so the slice is exactly the tail after
the found element.) -/
def findFrom : List HeadingEntry → (HeadingEntry → Bool) → Option (HeadingEntry × List HeadingEntry)
  | [], _ => none
  | h :: t, p => if p h then some (h, t) else findFrom t p

/-- Blocks whose half-open range ends at or before position `p`; the part
of the document strictly before a block-aligned position. -/
def takeToPos : List Block → Nat → List Block
  | [], _ => []
  | b :: bs, p => if b.nodeSize ≤ p then b :: takeToPos bs (p - b.nodeSize) else []

/-- Blocks from a block-aligned position `p` to the end of the document. -/
def dropToPos : List Block → Nat → List Block
  | [], _ => []
  | b :: bs, p => if b.nodeSize ≤ p then dropToPos bs (p - b.nodeSize) else b :: bs

/-- Replace the half-open block-aligned range `[f, t)` with new blocks. -/
def replaceRange (d : List Block) (f t : Nat) (new : List Block) : List Block :=
  takeToPos d f ++ new ++ dropToPos d t

/-- `tr.delete(from, to)` on a block-aligned range. -/
def trDelete (d : List Block) (f t : Nat) : List Block :=
  replaceRange d f t []

/-- `tr.insertText(text, from, to)` for the ranges the engine uses: the
full inline span `[pos + 1, pos + nodeSize - 1)` of a block, which
replaces that block's text.  Other ranges leave the document unchanged. -/
def trInsertText : List Block → String → Nat → Nat → List Block
  | [], _, _, _ => []
  | b :: bs, s, f, t =>
    if f == 1 && t == b.nodeSize - 1 then b.withText s :: bs
    else if b.nodeSize ≤ f then b :: trInsertText bs s (f - b.nodeSize) (t - b.nodeSize)
    else b :: bs

/-- Split a character stream on newline characters. -/
def splitOnNl : List Char → List (List Char)
  | [] => [[]]
  | c :: cs =>
    if c == '\n' then [] :: splitOnNl cs
    else
      match splitOnNl cs with
      | [] => [[c]]
      | l :: ls => (c :: l) :: ls

/-- One markdown line turned into a block node: a `#`-heading line becomes
a heading node, a blank line produces nothing, anything else a paragraph.
Models the tiptap `Markdown` extension's parse for the block kinds the
engine's claims touch (markdown parsing itself is external plumbing). -/
def lineBlock (cs : List Char) : Option Block :=
  if cs.dropWhile isJsWs == [] then none
  else
    let k := (cs.takeWhile (fun c => c == '#')).length
    let restIsWsLed :=
      match (cs.drop k).head? with
      | some c => isJsWs c
      | none => false
    if 1 ≤ k && k ≤ 6 && restIsWsLed then
      some (.heading k (String.mk (trimCharsList (cs.drop k))))
    else some (.paragraph (String.mk cs))

/-- Parse a markdown string into block nodes (model of the external
markdown parser used by `insertContentAt` with `contentType: markdown`). -/
def parseMarkdown (md : String) : List Block :=
  (splitOnNl md.toList).filterMap lineBlock

/-- Result of `parseLeadingHeading`: captured level and trimmed text, the
`trimStart`ed input and the length of the regex match. -/
structure ParsedHeading where
  level : Nat
  text : String
  trimmed : List Char
  matchLength : Nat
deriving DecidableEq

/-- Backtracking of the `\s+` part of `/^(#{1,6})\s+([^\n]+)\n?/`: the
largest `w` between 1 and `wmax` such that the character after the first
`w` whitespace characters exists and is not a newline (so `[^\n]+` can
start there). -/
def regexBacktrack (rest : List Char) : Nat → Option Nat
  | 0 => none
  | w + 1 =>
    match (rest.drop (w + 1)).head? with
    | some c => if c != '\n' then some (w + 1) else regexBacktrack rest w
    | none => regexBacktrack rest w

/-- `parseLeadingHeading`: `trimStart` the markdown and match it against
`/^(#{1,6})\s+([^\n]+)\n?/`, returning the heading level, the trimmed
captured text, the trimmed input and the match length. -/
def parseLeadingHeading (markdown : String) : Option ParsedHeading :=
  let cs := markdown.toList.dropWhile isJsWs
  let m := (cs.takeWhile (fun c => c == '#')).length
  if 1 ≤ m ∧ m ≤ 6 then
    let rest := cs.drop m
    let wmax := (rest.takeWhile isJsWs).length
    match regexBacktrack rest wmax with
    | none => none
    | some w =>
      let text := (rest.drop w).takeWhile (fun c => c != '\n')
      let afterText := (rest.drop w).drop text.length
      let nl :=
        match afterText.head? with
        | some c => if c == '\n' then 1 else 0
        | none => 0
      some ⟨m, String.mk (trimCharsList text), cs, m + w + text.length + nl⟩
  else none

/-- `stripMatchingHeading`: drop a leading heading line from the supplied
markdown when its level and trimmed text equal the matched heading's,
then remove the leading newlines of the remainder. -/
def stripMatchingHeading (markdown heading : String) (level : Nat) : String :=
  match parseLeadingHeading markdown with
  | none => markdown
  | some parsed =>
    if parsed.level == level && parsed.text == heading then
      String.mk ((parsed.trimmed.drop parsed.matchLength).dropWhile (fun c => c == '\n'))
    else markdown

/-- JSON string escaping for `JSON.stringify` (the escapes relevant to
the characters representable in this model). -/
def jsonEscapeChar (c : Char) : List Char :=
  if c == '"' then ['\\', '"']
  else if c == '\\' then ['\\', '\\']
  else if c == '\n' then ['\\', 'n']
  else if c == '\t' then ['\\', 't']
  else if c == '\r' then ['\\', 'r']
  else if c == '\x08' then ['\\', 'b']
  else if c == '\x0c' then ['\\', 'f']
  else [c]

def jsonEscape (s : String) : String :=
  String.mk (s.toList.map jsonEscapeChar).flatten

/-- `JSON.stringify` of one block of `editor.getJSON()` output. -/
def serializeBlock : Block → String
  | .heading lv tx =>
    "\x7b\"type\":\"heading\",\"attrs\":\x7b\"level\":" ++ toString lv ++
      "\x7d,\"content\":[\x7b\"type\":\"text\",\"text\":\"" ++ jsonEscape tx ++ "\"\x7d]\x7d"
  | .paragraph tx =>
    "\x7b\"type\":\"paragraph\",\"content\":[\x7b\"type\":\"text\",\"text\":\"" ++
      jsonEscape tx ++ "\"\x7d]\x7d"

def serializeList : List Block → String
  | [] => ""
  | [b] => serializeBlock b
  | b :: bs => serializeBlock b ++ "," ++ serializeList bs

/-- `JSON.stringify(editor.getJSON())`: the serialized content of the
document tree. -/
def serialize (d : List Block) : String :=
  "\x7b\"type\":\"doc\",\"content\":[" ++ serializeList d ++ "]\x7d"

/-- One step of the rolling hash in `hashDoc`:
`hash = (hash * 33) ^ raw.charCodeAt(i)`, on 32-bit values (JavaScript
`^` coerces to Int32; we carry the unsigned 32-bit representative, which
agrees bit-for-bit). -/
def hashStep (h : Nat) (c : Nat) : Nat :=
  ((h * 33) % 4294967296) ^^^ c

/-- The rolling hash of `hashDoc` over a raw string, seed 5381. -/
def hashString (s : String) : Nat :=
  s.toList.foldl (fun h c => hashStep h c.toNat) 5381

def hexDigitChar (n : Nat) : Char :=
  if n < 10 then Char.ofNat (48 + n) else Char.ofNat (87 + n)

/-- `(n >>> 0).toString(16)` via fuelled division. -/
def toHexCore : Nat → Nat → List Char → List Char
  | 0, _, acc => acc
  | fuel + 1, n, acc =>
    if n < 16 then hexDigitChar n :: acc
    else toHexCore fuel (n / 16) (hexDigitChar (n % 16) :: acc)

def toHexNat (n : Nat) : String :=
  String.mk (toHexCore (n + 1) n [])

/-- `hashDoc(doc)`: stable fingerprint of a document snapshot —
`JSON.stringify` the tree, fold the 33/xor rolling hash and print the
unsigned result in hexadecimal. -/
def hashDoc (d : List Block) : String :=
  toHexNat (hashString (serialize d))

/-- The runtime shape of an agent operation: a tag string and the fields
the five known operations use.  The engine dispatches on the tag at run
time, so unknown tags are representable. -/
structure RawOp where
  op : String
  heading : Option String := none
  newHeading : Option String := none
  level : Option Nat := none
  markdown : Option String := none
deriving DecidableEq

/-- The editing surface's willingness to apply each kind of command; a
rejected command reports `false` and leaves the document unchanged.  The
surface (tiptap/ProseMirror) is an external collaborator of the engine. -/
structure Surface where
  insertMarkdownOk : Bool
  insertPlainOk : Bool
  commandOk : Bool
deriving DecidableEq

/-- The surface with every command accepted. -/
def realSurface : Surface := ⟨true, true, true⟩

/-- `editor.commands.insertContentAt({from, to}, markdown, { contentType: markdown })`. -/
def insertContentAtMarkdown (s : Surface) (d : List Block) (f t : Nat) (md : String) :
    List Block × Bool :=
  if s.insertMarkdownOk then (replaceRange d f t (parseMarkdown md), true) else (d, false)

/-- `editor.commands.insertContentAt({from, to}, markdown)` — the plain
fallback insertion (the string inserted as one block). -/
def insertContentAtPlain (s : Surface) (d : List Block) (f t : Nat) (md : String) :
    List Block × Bool :=
  if s.insertPlainOk then (replaceRange d f t [Block.paragraph md], true) else (d, false)

/-- `applyMarkdownAtRange`: try the markdown insertion; when it is not
applied, retry as a plain insertion.  The results are not reported. -/
def applyMarkdownAtRange (s : Surface) (d : List Block) (f t : Nat) (md : String) :
    List Block :=
  let r := insertContentAtMarkdown s d f t md
  if !r.2 then (insertContentAtPlain s r.1 f t md).1 else r.1

/-- `editor.commands.command(({ tr }) => { tr.insertText(text, from, to); return true })`. -/
def commandInsertText (s : Surface) (d : List Block) (text : String) (f t : Nat) :
    List Block × Bool :=
  if s.commandOk then (trInsertText d text f t, true) else (d, false)

/-- `editor.commands.command(({ tr }) => { tr.delete(from, to); return true })`. -/
def commandDelete (s : Surface) (d : List Block) (f t : Nat) : List Block × Bool :=
  if s.commandOk then (trDelete d f t, true) else (d, false)

/-- `op.heading?.trim()` followed by the `if (!headingText)` falsiness
check: `none` when the field is absent or trims to the empty string. -/
def headingKey : Option String → Option String
  | none => none
  | some s => if trimChars s == "" then none else some (trimChars s)

/-- `isNonEmptyString(value)`: a string whose trim is non-empty. -/
def isNonEmptyString : Option String → Bool
  | none => false
  | some s => !(trimChars s == "")

/-- The engine's running state over one batch: the live document plus the
`applied` counter and the collected error messages. -/
structure OpState where
  doc : List Block
  applied : Nat
  errors : List String
deriving DecidableEq

/-- `errors.push(msg)` without touching the document or the counter. -/
def pushError (st : OpState) (msg : String) : OpState :=
  { st with errors := st.errors ++ [msg] }

/-- The body of the `ops.forEach` loop of `applyAiOps`: apply one
operation to the current state. -/
def applyOne (s : Surface) (st : OpState) (op : RawOp) : OpState :=
  if op.op == "append_markdown" then
    if isNonEmptyString op.markdown then
      let md := op.markdown.getD ""
      let endPos := sizeSum st.doc
      { st with doc := applyMarkdownAtRange s st.doc endPos endPos md,
                applied := st.applied + 1 }
    else pushError st "Missing markdown in op"
  else if op.op == "rename_heading" then
    match headingKey op.heading, headingKey op.newHeading with
    | some kt, some nh =>
      match findFrom (readHeadings st.doc) (matchesOp kt op.level) with
      | none => pushError st ("Heading not found: " ++ kt)
      | some (tgt, _) =>
        let r := commandInsertText s st.doc nh (tgt.pos + 1) (tgt.pos + tgt.nodeSize - 1)
        if r.2 then { st with doc := r.1, applied := st.applied + 1 }
        else pushError st "Failed to rename heading"
    | _, _ => pushError st "Missing heading/newHeading in op"
  else if op.op == "delete_section" then
    match headingKey op.heading with
    | none => pushError st "Missing heading in op"
    | some kt =>
      match findFrom (readHeadings st.doc) (matchesOp kt op.level) with
      | none => pushError st ("Heading not found: " ++ kt)
      | some (tgt, rest) =>
        let targetLevel := op.level.getD tgt.level
        let next := rest.find? (fun h => decide (h.level ≤ targetLevel))
        let toPos := match next with | some n => n.pos | none => sizeSum st.doc
        let r := commandDelete s st.doc tgt.pos toPos
        if r.2 then { st with doc := r.1, applied := st.applied + 1 }
        else pushError st ("Failed to delete section: " ++ kt)
  else
    match headingKey op.heading with
    | none => pushError st "Missing heading in op"
    | some kt =>
      match findFrom (readHeadings st.doc) (matchesOp kt op.level) with
      | none => pushError st ("Heading not found: " ++ kt)
      | some (tgt, rest) =>
        let targetLevel := op.level.getD tgt.level
        let next := rest.find? (fun h => decide (h.level ≤ targetLevel))
        let fromPos := tgt.pos + tgt.nodeSize
        let toPos := match next with | some n => n.pos | none => sizeSum st.doc
        if op.op == "replace_section_by_heading" then
          if isNonEmptyString op.markdown then
            let bodyOnly := stripMatchingHeading (op.markdown.getD "") kt targetLevel
            { st with doc := applyMarkdownAtRange s st.doc fromPos toPos bodyOnly,
                      applied := st.applied + 1 }
          else pushError st "Missing markdown in op"
        else if op.op == "insert_after_heading" then
          if isNonEmptyString op.markdown then
            let bodyOnly := stripMatchingHeading (op.markdown.getD "") kt targetLevel
            { st with doc := applyMarkdownAtRange s st.doc fromPos fromPos bodyOnly,
                      applied := st.applied + 1 }
          else pushError st "Missing markdown in op"
        else pushError st ("Unknown op: " ++ op.op)

/-- The engine's loop from an arbitrary starting state. -/
def applyAiOpsFrom (s : Surface) (st : OpState) (ops : List RawOp) : OpState :=
  ops.foldl (applyOne s) st

/-- `applyAiOps(ops)` with the editor present: process the batch in order
against the live document, returning the final document together with
`{ applied, errors }`. -/
def applyAiOps (s : Surface) (d : List Block) (ops : List RawOp) : OpState :=
  applyAiOpsFrom s ⟨d, 0, []⟩ ops

/-- `formatOpResultMessage(result, total)`: `null` without errors, else
the `Applied X/Y ops. Failed: ...` warning over the first three errors. -/
def formatOpResultMessage (applied : Nat) (errors : List String) (total : Nat) :
    Option String :=
  if errors.length == 0 then none
  else
    some ("Applied " ++ toString applied ++ "/" ++ toString total ++ " ops." ++
      " Failed: " ++ String.intercalate " | " (errors.take 3) ++
      (if errors.length > 3 then " | …" else ""))

/-- Outcome of one agent round as observed by the operator. -/
inductive AiEditOutcome where
  /-- The response was discarded because the fingerprint changed. -/
  | conflict (message : String)
  /-- `handleAiEdit` threw because no operation applied. -/
  | batchError (message : String)
  /-- Operations were applied, with an optional partial-failure warning. -/
  | success (warning : Option String)
deriving DecidableEq

/-- The approach-A reconciliation of `handleAiEdit` once a response with
operations arrives: re-hash the live tree, reject on mismatch with the
base hash, otherwise run the engine and throw when nothing applied.
Returns the document afterward and the observed outcome. -/
def handleAiEditA (base current : List Block) (ops : List RawOp) :
    List Block × AiEditOutcome :=
  if hashDoc current != hashDoc base then
    (current, .conflict "Document changed while the AI was editing. Please retry.")
  else
    let r := applyAiOps realSurface current ops
    if r.applied == 0 then
      (r.doc, .batchError (r.errors.headD "AI edit returned no valid ops"))
    else (r.doc, .success (formatOpResultMessage r.applied r.errors ops.length))

/-- The approach-A reconciliation of `handleChatSend` for a response with
operations: same hash comparison and rejection message, but without the
zero-applied throw. -/
def handleChatSendA (base current : List Block) (ops : List RawOp) :
    List Block × AiEditOutcome :=
  if hashDoc current != hashDoc base then
    (current, .conflict "Document changed while the AI was editing. Please retry.")
  else
    let r := applyAiOps realSurface current ops
    (r.doc, .success (formatOpResultMessage r.applied r.errors ops.length))

/-! ### Structural lemmas about positions and the heading index -/

theorem Block.nodeSize_pos (b : Block) : 0 < b.nodeSize := by
  cases b <;> simp [Block.nodeSize]

theorem sizeSum_append (u v : List Block) : sizeSum (u ++ v) = sizeSum u + sizeSum v := by
  induction u with
  | nil => simp [sizeSum]
  | cons b bs ih => simp [sizeSum, ih]; omega

theorem takeToPos_append (u v : List Block) : takeToPos (u ++ v) (sizeSum u) = u := by
  induction u with
  | nil =>
    cases v with
    | nil => rfl
    | cons b bs => simp [takeToPos, sizeSum, Nat.not_le.mpr b.nodeSize_pos]
  | cons b bs ih =>
    show takeToPos (b :: (bs ++ v)) (sizeSum (b :: bs)) = b :: bs
    rw [takeToPos.eq_def]
    simp only [sizeSum]
    rw [if_pos (by omega)]
    have h : b.nodeSize + sizeSum bs - b.nodeSize = sizeSum bs := by omega
    rw [h, ih]

theorem dropToPos_append (u v : List Block) : dropToPos (u ++ v) (sizeSum u) = v := by
  induction u with
  | nil =>
    cases v with
    | nil => rfl
    | cons b bs => simp [dropToPos, sizeSum, Nat.not_le.mpr b.nodeSize_pos]
  | cons b bs ih =>
    show dropToPos (b :: (bs ++ v)) (sizeSum (b :: bs)) = v
    rw [dropToPos.eq_def]
    simp only [sizeSum]
    rw [if_pos (by omega)]
    have h : b.nodeSize + sizeSum bs - b.nodeSize = sizeSum bs := by omega
    rw [h, ih]

theorem takeToPos_all (u : List Block) : takeToPos u (sizeSum u) = u := by
  have h := takeToPos_append u []
  simpa using h

theorem dropToPos_all (u : List Block) : dropToPos u (sizeSum u) = [] := by
  have h := dropToPos_append u []
  simpa using h

theorem readHeadingsAux_append (u v : List Block) :
    ∀ p, readHeadingsAux (u ++ v) p = readHeadingsAux u p ++ readHeadingsAux v (p + sizeSum u) := by
  induction u with
  | nil => intro p; simp [readHeadingsAux, sizeSum]
  | cons b bs ih =>
    intro p
    cases b with
    | heading lv tx => simp [readHeadingsAux, sizeSum, ih, Nat.add_assoc]
    | paragraph tx => simp [readHeadingsAux, sizeSum, ih, Nat.add_assoc]

/-- A heading block contributes an entry to the index with its level and
trimmed text. -/
theorem heading_mem_readHeadingsAux (lv : Nat) (tx : String) :
    ∀ (d : List Block) (base : Nat), Block.heading lv tx ∈ d →
      ∃ e ∈ readHeadingsAux d base, e.level = lv ∧ e.text = trimChars tx := by
  intro d
  induction d with
  | nil => intro base h; simp at h
  | cons b bs ih =>
    intro base h
    rcases List.mem_cons.mp h with h1 | h1
    · subst h1
      exact ⟨⟨base, lv, trimChars tx, (Block.heading lv tx).nodeSize⟩,
        by simp [readHeadingsAux], rfl, rfl⟩
    · cases b with
      | heading lv0 tx0 =>
        obtain ⟨e, he, hprop⟩ := ih (base + (Block.heading lv0 tx0).nodeSize) h1
        exact ⟨e, by simp [readHeadingsAux]; right; exact he, hprop⟩
      | paragraph tx0 =>
        obtain ⟨e, he, hprop⟩ := ih (base + (Block.paragraph tx0).nodeSize) h1
        exact ⟨e, by simp [readHeadingsAux]; exact he, hprop⟩

/-- Locating a heading through `findFrom` splits the document: there is a
prefix with no matching heading entry, then the matched heading block at
the entry's recorded position, and the returned tail indexes the blocks
after it. -/
theorem findFrom_locate (p : HeadingEntry → Bool) :
    ∀ (d : List Block) (base : Nat) (tgt : HeadingEntry) (rest : List HeadingEntry),
      findFrom (readHeadingsAux d base) p = some (tgt, rest) →
      ∃ pre lv tx post,
        d = pre ++ Block.heading lv tx :: post ∧
        tgt = ⟨base + sizeSum pre, lv, trimChars tx, tx.length + 2⟩ ∧
        rest = readHeadingsAux post (base + sizeSum pre + (tx.length + 2)) ∧
        p tgt = true ∧
        (∀ e ∈ readHeadingsAux pre base, p e = false) := by
  intro d
  induction d with
  | nil => intro base tgt rest h; simp [readHeadingsAux, findFrom] at h
  | cons b bs ih =>
    intro base tgt rest h
    cases b with
    | heading lv0 tx0 =>
      rw [readHeadingsAux] at h
      rw [show ∀ e t q, findFrom (e :: t) q = if q e then some (e, t) else findFrom t q
            from fun _ _ _ => rfl] at h
      split at h
      · rename_i hp
        rw [Option.some.injEq, Prod.mk.injEq] at h
        obtain ⟨h1, h2⟩ := h
        refine ⟨[], lv0, tx0, bs, by simp, ?_, ?_, ?_, by simp [readHeadingsAux]⟩
        · rw [← h1]; simp [sizeSum, Block.nodeSize]
        · rw [← h2]; simp [sizeSum, Block.nodeSize]
        · rw [← h1]; exact hp
      · rename_i hp
        obtain ⟨pre', lv, tx, post, hd, htgt, hrest, hptgt, hpre⟩ :=
          ih (base + (Block.heading lv0 tx0).nodeSize) tgt rest h
        refine ⟨Block.heading lv0 tx0 :: pre', lv, tx, post, by rw [hd]; rfl, ?_, ?_, hptgt, ?_⟩
        · rw [htgt]; simp [sizeSum, Block.nodeSize]; omega
        · rw [hrest]; simp [sizeSum, Block.nodeSize]; congr 1; omega
        · intro e he
          rw [readHeadingsAux] at he
          rcases List.mem_cons.mp he with h1 | h1
          · subst h1; simpa using hp
          · exact hpre e h1
    | paragraph tx0 =>
      rw [readHeadingsAux] at h
      obtain ⟨pre', lv, tx, post, hd, htgt, hrest, hptgt, hpre⟩ :=
        ih (base + (Block.paragraph tx0).nodeSize) tgt rest h
      refine ⟨Block.paragraph tx0 :: pre', lv, tx, post, by rw [hd]; rfl, ?_, ?_, hptgt, ?_⟩
      · rw [htgt]; simp [sizeSum, Block.nodeSize]; omega
      · rw [hrest]; simp [sizeSum, Block.nodeSize]; congr 1; omega
      · intro e he
        rw [readHeadingsAux] at he
        exact hpre e he

/-- `find?` is `findFrom` forgetting the tail. -/
theorem find?_eq_findFrom (l : List HeadingEntry) (p : HeadingEntry → Bool) :
    l.find? p = (findFrom l p).map Prod.fst := by
  induction l with
  | nil => rfl
  | cons h t ih =>
    rw [List.find?, findFrom]
    by_cases hp : p h
    · simp [hp]
    · simp only [Bool.not_eq_true] at hp
      simp [hp, ih]

/-- The target filter of `matchesOp` read off a block: a heading block
whose trimmed text is the key and whose level agrees with the optional
requested level. -/
def blockMatches (key : String) (lvl : Option Nat) : Block → Bool
  | .heading lv tx =>
    trimChars tx == key &&
      (match lvl with
       | some l => lv == l
       | none => true)
  | .paragraph _ => false

/-- Matching heading entries of the index and matching heading blocks of
the document are in bijection; in particular their counts agree. -/
theorem countP_readHeadingsAux (key : String) (lvl : Option Nat) :
    ∀ (d : List Block) (base : Nat),
      (readHeadingsAux d base).countP (matchesOp key lvl) =
        d.countP (blockMatches key lvl) := by
  intro d
  induction d with
  | nil => intro base; rfl
  | cons b bs ih =>
    intro base
    cases b with
    | heading lv tx =>
      rw [readHeadingsAux]
      rw [List.countP_cons, List.countP_cons, ih]
      simp [matchesOp, blockMatches]
    | paragraph tx =>
      rw [readHeadingsAux]
      rw [ih, List.countP_cons]
      simp [blockMatches]

/-- `findFrom` returns the first satisfying entry: the entry is in the
list, satisfies the filter, and nothing before it does. -/
theorem findFrom_first (p : HeadingEntry → Bool) :
    ∀ (l : List HeadingEntry) (tgt : HeadingEntry) (rest : List HeadingEntry),
      findFrom l p = some (tgt, rest) →
      ∃ i : Nat, l[i]? = some tgt ∧ p tgt = true ∧
        ∀ j : Nat, j < i → ∀ e, l[j]? = some e → p e = false := by
  intro l
  induction l with
  | nil => intro tgt rest h; simp [findFrom] at h
  | cons e t ih =>
    intro tgt rest h
    rw [show ∀ q, findFrom (e :: t) q = if q e then some (e, t) else findFrom t q
          from fun _ => rfl] at h
    split at h
    · rename_i hp
      rw [Option.some.injEq, Prod.mk.injEq] at h
      refine ⟨0, ?_, ?_, ?_⟩
      · rw [← h.1]; simp
      · rw [← h.1]; exact hp
      · intro j hj
        exact absurd hj (by omega)
    · rename_i hp
      obtain ⟨i, hi, hptgt, hbefore⟩ := ih tgt rest h
      refine ⟨i + 1, by simpa using hi, hptgt, ?_⟩
      intro j hj e' he'
      cases j with
      | zero =>
        simp at he'
        rw [← he']
        simpa using hp
      | succ k =>
        simp at he'
        exact hbefore k (by omega) e' (by simpa using he')

/-- When some entry satisfies the filter, `findFrom` succeeds. -/
theorem findFrom_isSome (p : HeadingEntry → Bool) :
    ∀ (l : List HeadingEntry), (∃ e ∈ l, p e = true) →
      ∃ tgt rest, findFrom l p = some (tgt, rest) := by
  intro l
  induction l with
  | nil => intro h; simp at h
  | cons e t ih =>
    intro h
    rw [show ∀ q, findFrom (e :: t) q = if q e then some (e, t) else findFrom t q
          from fun _ => rfl]
    by_cases hp : p e = true
    · exact ⟨e, t, by rw [if_pos hp]⟩
    · obtain ⟨e', he', hpe'⟩ := h
      rcases List.mem_cons.mp he' with h1 | h1
      · subst h1; exact absurd hpe' hp
      · obtain ⟨tgt, rest, hfind⟩ := ih ⟨e', h1, hpe'⟩
        exact ⟨tgt, rest, by rw [if_neg hp]; exact hfind⟩

/-! ### Unfolding the engine on each operation kind -/

theorem matchesOp_blockMatches (key : String) (lvl : Option Nat) (pos lv sz : Nat) (tx : String) :
    blockMatches key lvl (Block.heading lv tx) = matchesOp key lvl ⟨pos, lv, trimChars tx, sz⟩ := by
  simp [matchesOp, blockMatches]

theorem applyMarkdownAtRange_real (d : List Block) (f t : Nat) (md : String) :
    applyMarkdownAtRange realSurface d f t md = replaceRange d f t (parseMarkdown md) := by
  simp [applyMarkdownAtRange, insertContentAtMarkdown, realSurface]

theorem applyMarkdownAtRange_rejected (s : Surface) (d : List Block) (f t : Nat) (md : String)
    (h1 : s.insertMarkdownOk = false) (h2 : s.insertPlainOk = false) :
    applyMarkdownAtRange s d f t md = d := by
  simp [applyMarkdownAtRange, insertContentAtMarkdown, insertContentAtPlain, h1, h2]

theorem applyOne_append (s : Surface) (st : OpState) (md : String)
    (hmd : isNonEmptyString (some md) = true) :
    applyOne s st ⟨"append_markdown", none, none, none, some md⟩ =
      { st with doc := applyMarkdownAtRange s st.doc (sizeSum st.doc) (sizeSum st.doc) md,
                applied := st.applied + 1 } := by
  simp only [applyOne]
  simp only [show ((("append_markdown" : String) == "append_markdown")) = true from by decide]
  simp [hmd]

theorem applyOne_rename_found (s : Surface) (st : OpState) (h nh : String) (lvl : Option Nat)
    (kt ktn : String) (tgt : HeadingEntry) (rest : List HeadingEntry)
    (hkey : headingKey (some h) = some kt)
    (hnew : headingKey (some nh) = some ktn)
    (hfind : findFrom (readHeadings st.doc) (matchesOp kt lvl) = some (tgt, rest)) :
    applyOne s st ⟨"rename_heading", some h, some nh, lvl, none⟩ =
      (if s.commandOk then
        { st with doc := trInsertText st.doc ktn (tgt.pos + 1) (tgt.pos + tgt.nodeSize - 1),
                  applied := st.applied + 1 }
       else pushError st "Failed to rename heading") := by
  simp only [applyOne]
  simp only [show ((("rename_heading" : String) == "append_markdown")) = false from by decide,
    show ((("rename_heading" : String) == "rename_heading")) = true from by decide]
  simp only [Bool.false_eq_true, if_false, if_true, hkey, hnew, hfind]
  by_cases hok : s.commandOk <;> simp [commandInsertText, hok]

theorem applyOne_delete_found (s : Surface) (st : OpState) (h : String) (lvl : Option Nat)
    (kt : String) (tgt : HeadingEntry) (rest : List HeadingEntry)
    (hkey : headingKey (some h) = some kt)
    (hfind : findFrom (readHeadings st.doc) (matchesOp kt lvl) = some (tgt, rest)) :
    applyOne s st ⟨"delete_section", some h, none, lvl, none⟩ =
      (if s.commandOk then
        { st with
          doc := trDelete st.doc tgt.pos
            (match rest.find? (fun e => decide (e.level ≤ lvl.getD tgt.level)) with
             | some n => n.pos
             | none => sizeSum st.doc),
          applied := st.applied + 1 }
       else pushError st ("Failed to delete section: " ++ kt)) := by
  simp only [applyOne]
  simp only [show ((("delete_section" : String) == "append_markdown")) = false from by decide,
    show ((("delete_section" : String) == "rename_heading")) = false from by decide,
    show ((("delete_section" : String) == "delete_section")) = true from by decide]
  simp only [Bool.false_eq_true, if_false, if_true, hkey, hfind]
  by_cases hok : s.commandOk <;> simp [commandDelete, hok]

theorem applyOne_replace_found (s : Surface) (st : OpState) (h md : String) (lvl : Option Nat)
    (kt : String) (tgt : HeadingEntry) (rest : List HeadingEntry)
    (hkey : headingKey (some h) = some kt)
    (hfind : findFrom (readHeadings st.doc) (matchesOp kt lvl) = some (tgt, rest))
    (hmd : isNonEmptyString (some md) = true) :
    applyOne s st ⟨"replace_section_by_heading", some h, none, lvl, some md⟩ =
      { st with
        doc := applyMarkdownAtRange s st.doc (tgt.pos + tgt.nodeSize)
          (match rest.find? (fun e => decide (e.level ≤ lvl.getD tgt.level)) with
           | some n => n.pos
           | none => sizeSum st.doc)
          (stripMatchingHeading md kt (lvl.getD tgt.level)),
        applied := st.applied + 1 } := by
  simp only [applyOne]
  simp only [show ((("replace_section_by_heading" : String) == "append_markdown")) = false
      from by decide,
    show ((("replace_section_by_heading" : String) == "rename_heading")) = false from by decide,
    show ((("replace_section_by_heading" : String) == "delete_section")) = false from by decide,
    show ((("replace_section_by_heading" : String) == "replace_section_by_heading")) = true
      from by decide]
  simp only [Bool.false_eq_true, if_false, if_true, hkey, hfind]
  simp [hmd]

theorem applyOne_insert_found (s : Surface) (st : OpState) (h md : String) (lvl : Option Nat)
    (kt : String) (tgt : HeadingEntry) (rest : List HeadingEntry)
    (hkey : headingKey (some h) = some kt)
    (hfind : findFrom (readHeadings st.doc) (matchesOp kt lvl) = some (tgt, rest))
    (hmd : isNonEmptyString (some md) = true) :
    applyOne s st ⟨"insert_after_heading", some h, none, lvl, some md⟩ =
      { st with
        doc := applyMarkdownAtRange s st.doc (tgt.pos + tgt.nodeSize) (tgt.pos + tgt.nodeSize)
          (stripMatchingHeading md kt (lvl.getD tgt.level)),
        applied := st.applied + 1 } := by
  simp only [applyOne]
  simp only [show ((("insert_after_heading" : String) == "append_markdown")) = false
      from by decide,
    show ((("insert_after_heading" : String) == "rename_heading")) = false from by decide,
    show ((("insert_after_heading" : String) == "delete_section")) = false from by decide,
    show ((("insert_after_heading" : String) == "replace_section_by_heading")) = false
      from by decide,
    show ((("insert_after_heading" : String) == "insert_after_heading")) = true from by decide]
  simp only [Bool.false_eq_true, if_false, if_true, hkey, hfind]
  simp [hmd]

theorem applyOne_replace_notfound (s : Surface) (st : OpState) (h : String)
    (lvl : Option Nat) (md : Option String) (kt : String)
    (hkey : headingKey (some h) = some kt)
    (hfind : findFrom (readHeadings st.doc) (matchesOp kt lvl) = none) :
    applyOne s st ⟨"replace_section_by_heading", some h, none, lvl, md⟩ =
      pushError st ("Heading not found: " ++ kt) := by
  simp only [applyOne]
  simp only [show ((("replace_section_by_heading" : String) == "append_markdown")) = false
      from by decide,
    show ((("replace_section_by_heading" : String) == "rename_heading")) = false from by decide,
    show ((("replace_section_by_heading" : String) == "delete_section")) = false from by decide]
  simp only [Bool.false_eq_true, if_false, hkey, hfind]

theorem applyOne_replace_nomd (s : Surface) (st : OpState) (h : String)
    (lvl : Option Nat) (md : Option String) (kt : String)
    (tgt : HeadingEntry) (rest : List HeadingEntry)
    (hkey : headingKey (some h) = some kt)
    (hfind : findFrom (readHeadings st.doc) (matchesOp kt lvl) = some (tgt, rest))
    (hmd : isNonEmptyString md = false) :
    applyOne s st ⟨"replace_section_by_heading", some h, none, lvl, md⟩ =
      pushError st "Missing markdown in op" := by
  simp only [applyOne]
  simp only [show ((("replace_section_by_heading" : String) == "append_markdown")) = false
      from by decide,
    show ((("replace_section_by_heading" : String) == "rename_heading")) = false from by decide,
    show ((("replace_section_by_heading" : String) == "delete_section")) = false from by decide,
    show ((("replace_section_by_heading" : String) == "replace_section_by_heading")) = true
      from by decide]
  simp only [Bool.false_eq_true, if_false, if_true, hkey, hfind]
  simp [hmd]

/-- C4 (amended): when a heading address (text, optional level) resolves
and exactly one heading of the document matches it, `delete_section`
succeeds, deletes the range from the matched heading's start to the next
heading of level at most the target level (or the document end), and the
recomputed heading index contains no entry matching the address.  (The
unamended claim fails for duplicate heading addresses, see the
counterexample.) -/
theorem spec_c4 (d : List Block) (h : String) (lvl : Option Nat) (kt : String)
    (tgt : HeadingEntry) (rest : List HeadingEntry)
    (hkey : headingKey (some h) = some kt)
    (hfind : findFrom (readHeadings d) (matchesOp kt lvl) = some (tgt, rest))
    (huniq : (readHeadings d).countP (matchesOp kt lvl) = 1) :
    (applyAiOps realSurface d [⟨"delete_section", some h, none, lvl, none⟩]).applied = 1 ∧
    (applyAiOps realSurface d [⟨"delete_section", some h, none, lvl, none⟩]).errors = [] ∧
    (applyAiOps realSurface d [⟨"delete_section", some h, none, lvl, none⟩]).doc =
      trDelete d tgt.pos
        (match rest.find? (fun e => decide (e.level ≤ lvl.getD tgt.level)) with
         | some n => n.pos
         | none => sizeSum d) ∧
    ∀ e ∈ readHeadings
        (applyAiOps realSurface d [⟨"delete_section", some h, none, lvl, none⟩]).doc,
      matchesOp kt lvl e = false := by
  have happ := applyOne_delete_found realSurface ⟨d, 0, []⟩ h lvl kt tgt rest hkey hfind
  simp only [show realSurface.commandOk = true from rfl, if_true] at happ
  have hres : applyAiOps realSurface d [⟨"delete_section", some h, none, lvl, none⟩] =
      ⟨trDelete d tgt.pos
        (match rest.find? (fun e => decide (e.level ≤ lvl.getD tgt.level)) with
         | some n => n.pos
         | none => sizeSum d), 1, []⟩ := by
    have h0 : applyAiOps realSurface d [⟨"delete_section", some h, none, lvl, none⟩] =
        applyOne realSurface ⟨d, 0, []⟩ ⟨"delete_section", some h, none, lvl, none⟩ := rfl
    rw [h0, happ]
  rw [hres]
  refine ⟨rfl, rfl, rfl, ?_⟩
  obtain ⟨pre, lv, tx, post, hd, htgt, hrest, hptgt, hpre⟩ :=
    findFrom_locate (matchesOp kt lvl) d 0 tgt rest hfind
  have hcount : d.countP (blockMatches kt lvl) = 1 := by
    rw [← countP_readHeadingsAux kt lvl d 0]; exact huniq
  have hbm : blockMatches kt lvl (Block.heading lv tx) = true := by
    rw [matchesOp_blockMatches kt lvl (0 + sizeSum pre) lv (tx.length + 2) tx, ← htgt]
    exact hptgt
  have hcpre : pre.countP (blockMatches kt lvl) = 0 ∧
      post.countP (blockMatches kt lvl) = 0 := by
    rw [hd, List.countP_append, List.countP_cons, hbm] at hcount
    simp at hcount
    omega
  have h1 : tgt.pos = sizeSum pre := by rw [htgt]; simp
  cases hnext : rest.find? (fun e => decide (e.level ≤ lvl.getD tgt.level)) with
  | none =>
    have hdoc : trDelete d tgt.pos (sizeSum d) = pre := by
      rw [trDelete, replaceRange, dropToPos_all]
      rw [h1, hd, takeToPos_append]
      simp
    simp only [hnext]
    rw [hdoc]
    intro e he
    have hz : (readHeadingsAux pre 0).countP (matchesOp kt lvl) = 0 := by
      rw [countP_readHeadingsAux]; exact hcpre.1
    have := List.countP_eq_zero.mp hz e he
    simpa using this
  | some n =>
    have hfr : ∃ rest2,
        findFrom rest (fun e => decide (e.level ≤ lvl.getD tgt.level)) = some (n, rest2) := by
      have heq := find?_eq_findFrom rest (fun e => decide (e.level ≤ lvl.getD tgt.level))
      rw [hnext] at heq
      cases hF : findFrom rest (fun e => decide (e.level ≤ lvl.getD tgt.level)) with
      | none => rw [hF] at heq; simp at heq
      | some pr =>
        obtain ⟨n', rest2⟩ := pr
        rw [hF] at heq
        simp at heq
        subst heq
        exact ⟨rest2, rfl⟩
    obtain ⟨rest2, hfr⟩ := hfr
    rw [hrest] at hfr
    obtain ⟨mid, lv2, tx2, tail, hpost, hn, hrest2, hpn, hmid⟩ :=
      findFrom_locate (fun e => decide (e.level ≤ lvl.getD tgt.level)) post
        (0 + sizeSum pre + (tx.length + 2)) n rest2 hfr
    have hnpos : n.pos = sizeSum (pre ++ Block.heading lv tx :: mid) := by
      rw [hn, sizeSum_append]
      simp [sizeSum, Block.nodeSize]
      omega
    have hdsplit : d = (pre ++ Block.heading lv tx :: mid) ++ (Block.heading lv2 tx2 :: tail) := by
      rw [hd, hpost]; simp
    have hdoc : trDelete d tgt.pos n.pos = pre ++ Block.heading lv2 tx2 :: tail := by
      rw [trDelete, replaceRange]
      have h2 : takeToPos d tgt.pos = pre := by
        rw [h1, hd, takeToPos_append]
      have h3 : dropToPos d n.pos = Block.heading lv2 tx2 :: tail := by
        rw [hnpos]
        conv_lhs => rw [hdsplit]
        rw [dropToPos_append]
      rw [h2, h3]; simp
    simp only [hnext]
    rw [hdoc]
    intro e he
    have hc2 : (Block.heading lv2 tx2 :: tail).countP (blockMatches kt lvl) = 0 := by
      have hp0 : post.countP (blockMatches kt lvl) = 0 := hcpre.2
      rw [hpost, List.countP_append] at hp0
      omega
    have hcres : (pre ++ Block.heading lv2 tx2 :: tail).countP (blockMatches kt lvl) = 0 := by
      rw [List.countP_append]
      have := hcpre.1
      omega
    have hzero : (readHeadings (pre ++ Block.heading lv2 tx2 :: tail)).countP
        (matchesOp kt lvl) = 0 := by
      rw [readHeadings, countP_readHeadingsAux]; exact hcres
    have := List.countP_eq_zero.mp hzero e he
    simpa using this

/-- C4, counterexample to the unamended claim: with two level-2 headings
both reading `A`, `delete_section` on address `A` removes the first
occurrence's section, yet the recomputed heading index still contains a
heading matching the address. -/
theorem spec_c4_counterexample :
    ∃ e ∈ readHeadings (applyAiOps realSurface
        [Block.heading 2 "A", Block.paragraph "x", Block.heading 2 "A"]
        [⟨"delete_section", some "A", none, none, none⟩]).doc,
      matchesOp "A" none e = true := by decide

/-- C4, witness: the amended theorem applied to a concrete document. -/
theorem spec_c4_witness :
    (applyAiOps realSurface
        [Block.heading 2 "Overview", Block.paragraph "x", Block.heading 2 "Risks"]
        [⟨"delete_section", some "Risks", none, none, none⟩]).applied = 1 ∧
    ∀ e ∈ readHeadings (applyAiOps realSurface
        [Block.heading 2 "Overview", Block.paragraph "x", Block.heading 2 "Risks"]
        [⟨"delete_section", some "Risks", none, none, none⟩]).doc,
      matchesOp "Risks" none e = false := by
  have h := spec_c4 [Block.heading 2 "Overview", Block.paragraph "x", Block.heading 2 "Risks"]
    "Risks" none "Risks" ⟨13, 2, "Risks", 7⟩ []
    (by decide) (by decide) (by decide)
  exact ⟨h.1, h.2.2.2⟩

/-! ### Claim theorems: fingerprinting and the reconciliation step -/

/-- C1: when the fingerprint recomputed at response time differs from the
base fingerprint, both `handleAiEdit` and `handleChatSend` discard the
response with the conflict message, the engine is not invoked, the tree
is not mutated, and the tree's fingerprint afterward is the fingerprint
it had at response time. -/
theorem spec_c1 (base current : List Block) (ops : List RawOp)
    (hne : hashDoc current ≠ hashDoc base) :
    handleAiEditA base current ops =
      (current, .conflict "Document changed while the AI was editing. Please retry.") ∧
    handleChatSendA base current ops =
      (current, .conflict "Document changed while the AI was editing. Please retry.") ∧
    (handleAiEditA base current ops).1 = current ∧
    hashDoc (handleAiEditA base current ops).1 = hashDoc current := by
  have hb : (hashDoc current != hashDoc base) = true := bne_iff_ne.mpr hne
  have h1 : handleAiEditA base current ops =
      (current, .conflict "Document changed while the AI was editing. Please retry.") := by
    simp only [handleAiEditA, hb, if_true]
  have h2 : handleChatSendA base current ops =
      (current, .conflict "Document changed while the AI was editing. Please retry.") := by
    simp only [handleChatSendA, hb, if_true]
  exact ⟨h1, h2, by rw [h1], by rw [h1]⟩

/-- C1, witness: concrete conflicting snapshots. -/
theorem spec_c1_witness :
    hashDoc [Block.paragraph "x"] ≠ hashDoc ([] : List Block) ∧
    handleAiEditA [] [Block.paragraph "x"]
        [⟨"append_markdown", none, none, none, some "hi"⟩] =
      ([Block.paragraph "x"],
        .conflict "Document changed while the AI was editing. Please retry.") := by
  have hne : hashDoc [Block.paragraph "x"] ≠ hashDoc ([] : List Block) := by decide
  exact ⟨hne, (spec_c1 [] [Block.paragraph "x"] _ hne).1⟩

/-- Each operation contributes exactly one outcome: one applied count or
one recorded error. -/
theorem applyOne_outcome (s : Surface) (st : OpState) (op : RawOp) :
    (applyOne s st op).applied + (applyOne s st op).errors.length =
      st.applied + st.errors.length + 1 := by
  unfold applyOne
  simp only [commandInsertText, commandDelete]
  repeat' split
  all_goals (simp [pushError]; omega)

theorem applyAiOpsFrom_outcome (s : Surface) :
    ∀ (ops : List RawOp) (st : OpState),
      (applyAiOpsFrom s st ops).applied + (applyAiOpsFrom s st ops).errors.length =
        st.applied + st.errors.length + ops.length := by
  intro ops
  induction ops with
  | nil => intro st; simp [applyAiOpsFrom]
  | cons op rest ih =>
    intro st
    have h1 : applyAiOpsFrom s st (op :: rest) = applyAiOpsFrom s (applyOne s st op) rest := rfl
    rw [h1, ih (applyOne s st op)]
    have h2 := applyOne_outcome s st op
    simp [List.length_cons]
    omega

/-- C2: each operation of a batch is attempted exactly once regardless of
earlier failures — processing `ops1 ++ ops2` continues into `ops2` from
the state `ops1` left, and `applied + |errors| = |batch| (≤ |batch|)`;
and, in `handleAiEdit`, the round fails exactly when `applied == 0`,
while partial success reports the `Applied X/Y ops.` warning instead. -/
theorem spec_c2 (s : Surface) (d : List Block) (ops ops1 ops2 : List RawOp) :
    (applyAiOps s d ops).applied + (applyAiOps s d ops).errors.length ≤ ops.length ∧
    (applyAiOps s d ops).applied + (applyAiOps s d ops).errors.length = ops.length ∧
    applyAiOpsFrom s (applyAiOps s d ops1) ops2 = applyAiOps s d (ops1 ++ ops2) ∧
    ((applyAiOps realSurface d ops).applied = 0 ↔
      ∃ msg, (handleAiEditA d d ops).2 = AiEditOutcome.batchError msg) ∧
    (0 < (applyAiOps realSurface d ops).applied →
      (handleAiEditA d d ops).2 = AiEditOutcome.success
        (formatOpResultMessage (applyAiOps realSurface d ops).applied
          (applyAiOps realSurface d ops).errors ops.length)) := by
  have hout : (applyAiOps s d ops).applied + (applyAiOps s d ops).errors.length = ops.length := by
    have := applyAiOpsFrom_outcome s ops ⟨d, 0, []⟩
    simpa [applyAiOps] using this
  refine ⟨le_of_eq hout, hout, ?_, ?_, ?_⟩
  · simp [applyAiOps, applyAiOpsFrom, List.foldl_append]
  · by_cases h0 : (applyAiOps realSurface d ops).applied = 0
    · simp only [handleAiEditA, bne_self_eq_false, Bool.false_eq_true, if_false, h0]
      simp
    · simp only [handleAiEditA, bne_self_eq_false, Bool.false_eq_true, if_false]
      simp [h0]
  · intro hpos
    have h0 : ¬((applyAiOps realSurface d ops).applied = 0) := by omega
    simp only [handleAiEditA, bne_self_eq_false, Bool.false_eq_true, if_false]
    simp [h0]

/-- C2, witness: the spec's end-to-end scenario 3 — a missing-heading
rename followed by an append gives one applied operation and one error. -/
theorem spec_c2_witness :
    (applyAiOps realSurface [Block.heading 2 "Overview"]
        [⟨"rename_heading", some "Missing", some "X", none, none⟩,
         ⟨"append_markdown", none, none, none, some "## New\nbody"⟩]).applied +
      (applyAiOps realSurface [Block.heading 2 "Overview"]
        [⟨"rename_heading", some "Missing", some "X", none, none⟩,
         ⟨"append_markdown", none, none, none, some "## New\nbody"⟩]).errors.length = 2 ∧
    (0 < (applyAiOps realSurface [Block.heading 2 "Overview"]
        [⟨"rename_heading", some "Missing", some "X", none, none⟩,
         ⟨"append_markdown", none, none, none, some "## New\nbody"⟩]).applied →
      (handleAiEditA [Block.heading 2 "Overview"] [Block.heading 2 "Overview"]
        [⟨"rename_heading", some "Missing", some "X", none, none⟩,
         ⟨"append_markdown", none, none, none, some "## New\nbody"⟩]).2 =
        AiEditOutcome.success
          (formatOpResultMessage (applyAiOps realSurface [Block.heading 2 "Overview"]
              [⟨"rename_heading", some "Missing", some "X", none, none⟩,
               ⟨"append_markdown", none, none, none, some "## New\nbody"⟩]).applied
            (applyAiOps realSurface [Block.heading 2 "Overview"]
              [⟨"rename_heading", some "Missing", some "X", none, none⟩,
               ⟨"append_markdown", none, none, none, some "## New\nbody"⟩]).errors 2)) := by
  have h := spec_c2 realSurface [Block.heading 2 "Overview"]
    [⟨"rename_heading", some "Missing", some "X", none, none⟩,
     ⟨"append_markdown", none, none, none, some "## New\nbody"⟩] [] []
  exact ⟨h.2.1, h.2.2.2.2⟩

/-- C8: the fingerprint is a function of the serialized content — equal
serializations give equal fingerprints, and repeated fingerprinting of an
unchanged tree returns the same string. -/
theorem spec_c8 (d1 d2 : List Block) (hs : serialize d1 = serialize d2) :
    hashDoc d1 = hashDoc d2 ∧ ∀ d : List Block, hashDoc d = hashDoc d := by
  refine ⟨?_, fun _ => rfl⟩
  unfold hashDoc
  rw [hs]

/-- C8, witness. -/
theorem spec_c8_witness :
    serialize [Block.paragraph "x"] = serialize [Block.paragraph "x"] ∧
    hashDoc [Block.paragraph "x"] = hashDoc [Block.paragraph "x"] := by
  exact ⟨rfl, (spec_c8 [Block.paragraph "x"] [Block.paragraph "x"] rfl).1⟩

/-- C9, counterexample: two documents with different serialized content
but the same fingerprint — the 32-bit rolling hash collides, so the claim
that different content always yields different fingerprints is false. -/
theorem spec_c9_counterexample :
    serialize [Block.paragraph "kkldisuq"] ≠ serialize [Block.paragraph "cdwyerzr"] ∧
    hashDoc [Block.paragraph "kkldisuq"] = hashDoc [Block.paragraph "cdwyerzr"] := by
  constructor
  · decide
  · decide

/-- C9 (amended): the fingerprint separates documents only in the sound
direction — different fingerprints imply different serialized content
(collisions of the 32-bit hash are possible, see the counterexample). -/
theorem spec_c9 (d1 d2 : List Block) (hne : hashDoc d1 ≠ hashDoc d2) :
    serialize d1 ≠ serialize d2 := by
  intro hs
  apply hne
  unfold hashDoc
  rw [hs]

/-- C9, witness. -/
theorem spec_c9_witness :
    hashDoc [Block.paragraph "a"] ≠ hashDoc [Block.paragraph "b"] ∧
    serialize [Block.paragraph "a"] ≠ serialize [Block.paragraph "b"] := by
  have h : hashDoc [Block.paragraph "a"] ≠ hashDoc [Block.paragraph "b"] := by decide
  exact ⟨h, spec_c9 _ _ h⟩

/-- C5: when two or more headings share the trimmed text and the
operation gives that text with no level, the engine's lookup targets the
first such heading in document order — nothing before the returned entry
in the heading index carries that text. -/
theorem spec_c5 (d : List Block) (key : String)
    (hdup : 2 ≤ ((readHeadings d).filter (fun e => e.text == key)).length) :
    ∃ tgt rest, findFrom (readHeadings d) (matchesOp key none) = some (tgt, rest) ∧
      ∃ i : Nat, (readHeadings d)[i]? = some tgt ∧ tgt.text = key ∧
        ∀ j : Nat, j < i → ∀ e, (readHeadings d)[j]? = some e → e.text ≠ key := by
  have hmatch : ∀ e : HeadingEntry, matchesOp key none e = (e.text == key) := by
    intro e; simp [matchesOp]
  have hne : ((readHeadings d).filter (fun e => e.text == key)) ≠ [] := by
    intro hnil; rw [hnil] at hdup; simp at hdup
  obtain ⟨e0, he0⟩ := List.exists_mem_of_ne_nil _ hne
  have hex : ∃ e ∈ readHeadings d, matchesOp key none e = true :=
    ⟨e0, (List.mem_filter.mp he0).1, by rw [hmatch]; exact (List.mem_filter.mp he0).2⟩
  obtain ⟨tgt, rest, hfind⟩ := findFrom_isSome _ _ hex
  obtain ⟨i, hi, hp, hbefore⟩ := findFrom_first _ _ _ _ hfind
  refine ⟨tgt, rest, hfind, i, hi, ?_, ?_⟩
  · rw [hmatch] at hp
    exact beq_iff_eq.mp hp
  · intro j hj e he heq
    have hfalse := hbefore j hj e he
    rw [hmatch, heq] at hfalse
    simp at hfalse

/-- C5, witness: two level-distinct headings with the same text. -/
theorem spec_c5_witness :
    2 ≤ ((readHeadings [Block.heading 2 "A", Block.heading 3 "A"]).filter
        (fun e => e.text == "A")).length ∧
    ∃ tgt rest,
      findFrom (readHeadings [Block.heading 2 "A", Block.heading 3 "A"])
        (matchesOp "A" none) = some (tgt, rest) ∧
      ∃ i : Nat, (readHeadings [Block.heading 2 "A", Block.heading 3 "A"])[i]? = some tgt ∧
        tgt.text = "A" ∧
        ∀ j : Nat, j < i → ∀ e,
          (readHeadings [Block.heading 2 "A", Block.heading 3 "A"])[j]? = some e →
          e.text ≠ "A" :=
  ⟨by decide, spec_c5 [Block.heading 2 "A", Block.heading 3 "A"] "A" (by decide)⟩

/-- C6 (amended): an unknown operation tag is never counted as applied
and records exactly one error; the error is `Unknown op: <tag>` when the
operation carries a heading key that resolves — when the heading is
missing or unresolved, the earlier `Missing heading in op` /
`Heading not found` checks fire first (see the counterexample). -/
theorem spec_c6 (s : Surface) (d : List Block) (op : RawOp)
    (hunk : op.op ∉ (["append_markdown", "rename_heading", "delete_section",
      "replace_section_by_heading", "insert_after_heading"] : List String)) :
    (applyAiOps s d [op]).applied = 0 ∧
    (applyAiOps s d [op]).errors.length = 1 ∧
    (applyAiOps s d [op]).doc = d ∧
    (∀ kt tgt rest, headingKey op.heading = some kt →
      findFrom (readHeadings d) (matchesOp kt op.level) = some (tgt, rest) →
      (applyAiOps s d [op]).errors = ["Unknown op: " ++ op.op]) := by
  simp only [List.mem_cons, List.mem_singleton, not_or] at hunk
  obtain ⟨f1, f2, f3, f4, f5⟩ := hunk
  have g1 : (op.op == "append_markdown") = false := beq_eq_false_iff_ne.mpr f1
  have g2 : (op.op == "rename_heading") = false := beq_eq_false_iff_ne.mpr f2
  have g3 : (op.op == "delete_section") = false := beq_eq_false_iff_ne.mpr f3
  have g4 : (op.op == "replace_section_by_heading") = false := beq_eq_false_iff_ne.mpr f4
  have g5 : (op.op == "insert_after_heading") = false := beq_eq_false_iff_ne.mpr f5.1
  have h0 : applyAiOps s d [op] = applyOne s ⟨d, 0, []⟩ op := rfl
  cases hk : headingKey op.heading with
  | none =>
    have e : applyAiOps s d [op] = pushError ⟨d, 0, []⟩ "Missing heading in op" := by
      rw [h0]
      unfold applyOne
      simp only [g1, g2, g3, g4, g5, Bool.false_eq_true, if_false, hk]
    refine ⟨by rw [e]; rfl, by rw [e]; rfl, by rw [e]; rfl, ?_⟩
    intro kt tgt rest hk' hfind
    exact absurd hk' (by simp)
  | some kt =>
    cases hf : findFrom (readHeadings d) (matchesOp kt op.level) with
    | none =>
      have e : applyAiOps s d [op] = pushError ⟨d, 0, []⟩ ("Heading not found: " ++ kt) := by
        rw [h0]
        unfold applyOne
        simp only [g1, g2, g3, g4, g5, Bool.false_eq_true, if_false, hk, hf]
      refine ⟨by rw [e]; rfl, by rw [e]; rfl, by rw [e]; rfl, ?_⟩
      intro kt' tgt rest hk' hfind
      rw [Option.some.injEq] at hk'
      rw [← hk', hf] at hfind
      exact absurd hfind (by simp)
    | some pr =>
      have e : applyAiOps s d [op] = pushError ⟨d, 0, []⟩ ("Unknown op: " ++ op.op) := by
        rw [h0]
        unfold applyOne
        simp only [g1, g2, g3, g4, g5, Bool.false_eq_true, if_false, hk, hf]
      exact ⟨by rw [e]; rfl, by rw [e]; rfl, by rw [e]; rfl, fun _ _ _ _ _ => by rw [e]; rfl⟩

/-- C6, counterexample to the unamended claim: an unknown-tag operation
with no heading field is reported as `Missing heading in op`, not as
`Unknown op: bogus`. -/
theorem spec_c6_counterexample :
    (applyAiOps realSurface [Block.paragraph "x"]
        [⟨"bogus", none, none, none, none⟩]).errors = ["Missing heading in op"] ∧
    "Unknown op: bogus" ∉
      (applyAiOps realSurface [Block.paragraph "x"]
        [⟨"bogus", none, none, none, none⟩]).errors := by
  constructor
  · decide
  · decide

/-- C6, witness: an unknown-tag operation with a resolving heading. -/
theorem spec_c6_witness :
    ("bogus" : String) ∉ (["append_markdown", "rename_heading", "delete_section",
      "replace_section_by_heading", "insert_after_heading"] : List String) ∧
    (applyAiOps realSurface [Block.heading 2 "A"]
        [⟨"bogus", some "A", none, none, none⟩]).applied = 0 ∧
    (applyAiOps realSurface [Block.heading 2 "A"]
        [⟨"bogus", some "A", none, none, none⟩]).errors = ["Unknown op: bogus"] := by
  have h := spec_c6 realSurface [Block.heading 2 "A"]
    ⟨"bogus", some "A", none, none, none⟩ (by decide)
  exact ⟨by decide, h.1, h.2.2.2 "A" ⟨0, 2, "A", 3⟩ [] (by decide) (by decide)⟩

/-- C10: with the editing surface rejecting every insertion command, the
three markdown-insertion operations still count as applied with no error
(their command results are discarded), while `rename_heading` and
`delete_section` check the command result and record failure errors. -/
theorem spec_c10 (s : Surface) (d : List Block) (h nh md : String) (lvl : Option Nat)
    (kt ktn : String)
    (hmk : s.insertMarkdownOk = false) (hpl : s.insertPlainOk = false)
    (hcmd : s.commandOk = false)
    (hkey : headingKey (some h) = some kt)
    (hnew : headingKey (some nh) = some ktn)
    (hmd : isNonEmptyString (some md) = true)
    (tgt : HeadingEntry) (rest : List HeadingEntry)
    (hfind : findFrom (readHeadings d) (matchesOp kt lvl) = some (tgt, rest)) :
    applyAiOps s d [⟨"append_markdown", none, none, none, some md⟩] = ⟨d, 1, []⟩ ∧
    applyAiOps s d [⟨"replace_section_by_heading", some h, none, lvl, some md⟩] = ⟨d, 1, []⟩ ∧
    applyAiOps s d [⟨"insert_after_heading", some h, none, lvl, some md⟩] = ⟨d, 1, []⟩ ∧
    applyAiOps s d [⟨"rename_heading", some h, some nh, lvl, none⟩] =
      ⟨d, 0, ["Failed to rename heading"]⟩ ∧
    applyAiOps s d [⟨"delete_section", some h, none, lvl, none⟩] =
      ⟨d, 0, ["Failed to delete section: " ++ kt]⟩ := by
  refine ⟨?_, ?_, ?_, ?_, ?_⟩
  · have h0 : applyAiOps s d [⟨"append_markdown", none, none, none, some md⟩] =
        applyOne s ⟨d, 0, []⟩ ⟨"append_markdown", none, none, none, some md⟩ := rfl
    rw [h0, applyOne_append s ⟨d, 0, []⟩ md hmd,
      applyMarkdownAtRange_rejected s d _ _ md hmk hpl]
  · have h0 : applyAiOps s d [⟨"replace_section_by_heading", some h, none, lvl, some md⟩] =
        applyOne s ⟨d, 0, []⟩ ⟨"replace_section_by_heading", some h, none, lvl, some md⟩ := rfl
    rw [h0, applyOne_replace_found s ⟨d, 0, []⟩ h md lvl kt tgt rest hkey hfind hmd,
      applyMarkdownAtRange_rejected s d _ _ _ hmk hpl]
  · have h0 : applyAiOps s d [⟨"insert_after_heading", some h, none, lvl, some md⟩] =
        applyOne s ⟨d, 0, []⟩ ⟨"insert_after_heading", some h, none, lvl, some md⟩ := rfl
    rw [h0, applyOne_insert_found s ⟨d, 0, []⟩ h md lvl kt tgt rest hkey hfind hmd,
      applyMarkdownAtRange_rejected s d _ _ _ hmk hpl]
  · have h0 : applyAiOps s d [⟨"rename_heading", some h, some nh, lvl, none⟩] =
        applyOne s ⟨d, 0, []⟩ ⟨"rename_heading", some h, some nh, lvl, none⟩ := rfl
    rw [h0, applyOne_rename_found s ⟨d, 0, []⟩ h nh lvl kt ktn tgt rest hkey hnew hfind]
    simp [hcmd, pushError]
  · have h0 : applyAiOps s d [⟨"delete_section", some h, none, lvl, none⟩] =
        applyOne s ⟨d, 0, []⟩ ⟨"delete_section", some h, none, lvl, none⟩ := rfl
    rw [h0, applyOne_delete_found s ⟨d, 0, []⟩ h lvl kt tgt rest hkey hfind]
    simp [hcmd, pushError]

/-- C10, witness: the rejecting surface on a concrete document. -/
theorem spec_c10_witness :
    (⟨false, false, false⟩ : Surface).insertMarkdownOk = false ∧
    applyAiOps ⟨false, false, false⟩ [Block.heading 2 "A"]
      [⟨"replace_section_by_heading", some "A", none, none, some "hi"⟩] =
      ⟨[Block.heading 2 "A"], 1, []⟩ ∧
    applyAiOps ⟨false, false, false⟩ [Block.heading 2 "A"]
      [⟨"rename_heading", some "A", some "B", none, none⟩] =
      ⟨[Block.heading 2 "A"], 0, ["Failed to rename heading"]⟩ := by
  have h := spec_c10 ⟨false, false, false⟩ [Block.heading 2 "A"] "A" "B" "hi" none "A" "B"
    rfl rfl rfl (by decide) (by decide) (by decide) ⟨0, 2, "A", 3⟩ [] (by decide)
  exact ⟨rfl, h.2.1, h.2.2.2.1⟩

/-- `tr.insertText` over the full inline span of the block at a given
block boundary replaces exactly that block's text. -/
theorem trInsertText_at (s : String) :
    ∀ (pre : List Block) (b : Block) (post : List Block),
      trInsertText (pre ++ b :: post) s (sizeSum pre + 1) (sizeSum pre + b.nodeSize - 1) =
        pre ++ b.withText s :: post := by
  intro pre
  induction pre with
  | nil =>
    intro b post
    simp [trInsertText, sizeSum]
  | cons b0 pre' ih =>
    intro b post
    show trInsertText (b0 :: (pre' ++ b :: post)) s (sizeSum (b0 :: pre') + 1)
        (sizeSum (b0 :: pre') + b.nodeSize - 1) = b0 :: (pre' ++ b.withText s :: post)
    rw [show ∀ bb bs f t, trInsertText (bb :: bs) s f t =
        if f == 1 && t == bb.nodeSize - 1 then bb.withText s :: bs
        else if bb.nodeSize ≤ f then bb :: trInsertText bs s (f - bb.nodeSize) (t - bb.nodeSize)
        else bb :: bs from fun _ _ _ _ => rfl]
    have hb0 := b0.nodeSize_pos
    have hb := b.nodeSize_pos
    have hf : sizeSum (b0 :: pre') + 1 ≠ 1 := by simp [sizeSum]; omega
    rw [beq_eq_false_iff_ne.mpr hf, Bool.false_and, if_neg (by simp)]
    rw [if_pos (show b0.nodeSize ≤ sizeSum (b0 :: pre') + 1 by simp [sizeSum]; omega)]
    have e1 : sizeSum (b0 :: pre') + 1 - b0.nodeSize = sizeSum pre' + 1 := by
      simp [sizeSum]; omega
    have e2 : sizeSum (b0 :: pre') + b.nodeSize - 1 - b0.nodeSize =
        sizeSum pre' + b.nodeSize - 1 := by
      simp [sizeSum]; omega
    rw [e1, e2, ih]

/-- A heading node whose inline text carries no surrounding whitespace
(`textContent.trim()` is the text itself); paragraph nodes trivially so. -/
def headingTextNormalized : Block → Bool
  | .heading _ tx => trimChars tx == tx
  | .paragraph _ => true

/-- C7 (amended): when every heading's text is trim-normalized (no
surrounding whitespace), `rename_heading(h, h)` applies successfully and
leaves the document — and hence its serialization — byte-identical.
(With whitespace-padded heading text the rename inserts the trimmed text
and changes the bytes, see the counterexample.) -/
theorem spec_c7 (d : List Block) (h : String) (lvl : Option Nat) (kt : String)
    (tgt : HeadingEntry) (rest : List HeadingEntry)
    (hkey : headingKey (some h) = some kt)
    (hfind : findFrom (readHeadings d) (matchesOp kt lvl) = some (tgt, rest))
    (hnorm : ∀ b ∈ d, headingTextNormalized b = true) :
    applyAiOps realSurface d [⟨"rename_heading", some h, some h, lvl, none⟩] = ⟨d, 1, []⟩ ∧
    serialize (applyAiOps realSurface d [⟨"rename_heading", some h, some h, lvl, none⟩]).doc
      = serialize d := by
  have h0 : applyAiOps realSurface d [⟨"rename_heading", some h, some h, lvl, none⟩] =
      applyOne realSurface ⟨d, 0, []⟩ ⟨"rename_heading", some h, some h, lvl, none⟩ := rfl
  have happ := applyOne_rename_found realSurface ⟨d, 0, []⟩ h h lvl kt kt tgt rest hkey hkey hfind
  simp only [show realSurface.commandOk = true from rfl, if_true] at happ
  obtain ⟨pre, lv, tx, post, hd, htgt, hrest, hptgt, hpre⟩ :=
    findFrom_locate (matchesOp kt lvl) d 0 tgt rest hfind
  have htx : trimChars tx = tx := by
    have hmem : Block.heading lv tx ∈ d := by rw [hd]; simp
    have := hnorm _ hmem
    simpa [headingTextNormalized] using this
  have hktx : kt = tx := by
    have heq : tgt.text = kt := by
      have hm := hptgt
      rw [matchesOp.eq_def] at hm
      simp only [Bool.and_eq_true, beq_iff_eq] at hm
      exact hm.1
    rw [htgt] at heq
    simp at heq
    calc kt = trimChars tx := heq.symm
      _ = tx := htx
  have hdoc : trInsertText d kt (tgt.pos + 1) (tgt.pos + tgt.nodeSize - 1) = d := by
    have hp : tgt.pos = sizeSum pre := by rw [htgt]; simp
    have hsz : tgt.nodeSize = (Block.heading lv tx).nodeSize := by
      rw [htgt]; simp [Block.nodeSize]
    rw [hp, hsz, hd, trInsertText_at]
    rw [hktx]
    simp [Block.withText]
  constructor
  · rw [h0, happ, hdoc]
  · rw [h0, happ, hdoc]

/-- C7, counterexample to the unamended claim: a heading whose text is
`A ` (trailing space) resolves for address `A`, and `rename_heading(A, A)`
replaces the padded text with the trimmed one — the serialized document
changes. -/
theorem spec_c7_counterexample :
    (applyAiOps realSurface [Block.heading 2 "A "]
        [⟨"rename_heading", some "A", some "A", none, none⟩]).applied = 1 ∧
    serialize (applyAiOps realSurface [Block.heading 2 "A "]
        [⟨"rename_heading", some "A", some "A", none, none⟩]).doc ≠
      serialize [Block.heading 2 "A "] := by
  constructor
  · decide
  · decide

/-- C7, witness. -/
theorem spec_c7_witness :
    applyAiOps realSurface [Block.heading 2 "A"]
        [⟨"rename_heading", some "A", some "A", none, none⟩] =
      ⟨[Block.heading 2 "A"], 1, []⟩ :=
  (spec_c7 [Block.heading 2 "A"] "A" none "A" ⟨0, 2, "A", 3⟩ []
    (by decide) (by decide) (by decide)).1

/-! ### The leading-heading regex on well-shaped markdown -/

theorem length_dropWhile_le_chars (p : Char → Bool) :
    ∀ l : List Char, (l.dropWhile p).length ≤ l.length := by
  intro l
  induction l with
  | nil => simp
  | cons c t ih =>
    rw [List.dropWhile_cons]
    by_cases hc : p c
    · rw [if_pos hc]
      simp only [List.length_cons]
      omega
    · rw [if_neg hc]

theorem dropWhile_of_trimFixed (cs : List Char) (h : trimCharsList cs = cs) :
    cs.dropWhile isJsWs = cs := by
  have hlen : cs.length ≤ (cs.dropWhile isJsWs).length := by
    conv_lhs => rw [← h]
    unfold trimCharsList
    rw [List.length_reverse]
    calc ((cs.dropWhile isJsWs).reverse.dropWhile isJsWs).length
        ≤ (cs.dropWhile isJsWs).reverse.length := length_dropWhile_le_chars _ _
      _ = (cs.dropWhile isJsWs).length := List.length_reverse _
  cases cs with
  | nil => rfl
  | cons c t =>
    rw [List.dropWhile_cons]
    by_cases hw : isJsWs c
    · exfalso
      rw [List.dropWhile_cons, if_pos hw] at hlen
      have := length_dropWhile_le_chars isJsWs t
      simp at hlen
      omega
    · rw [if_neg hw]

theorem head_not_ws_of_trimFixed (c0 : Char) (k' : List Char)
    (h : trimCharsList (c0 :: k') = c0 :: k') : isJsWs c0 = false := by
  have hdw := dropWhile_of_trimFixed _ h
  by_cases hw : isJsWs c0
  · exfalso
    rw [List.dropWhile_cons, if_pos hw] at hdw
    have := length_dropWhile_le_chars isJsWs k'
    have := congrArg List.length hdw
    simp at this
    omega
  · simpa using hw

theorem takeWhile_replicate_stop (a : Char) (p : Char → Bool) (hp : p a = true) :
    ∀ (n : Nat) (xs : List Char), (∀ c, xs.head? = some c → p c = false) →
      (List.replicate n a ++ xs).takeWhile p = List.replicate n a := by
  intro n
  induction n with
  | zero =>
    intro xs hx
    cases xs with
    | nil => rfl
    | cons c t =>
      simp only [List.replicate, List.nil_append, List.takeWhile_cons]
      rw [hx c rfl]
      simp
  | succ n ih =>
    intro xs hx
    rw [List.replicate_succ, List.cons_append, List.takeWhile_cons, hp]
    simp only [if_true]
    rw [ih xs hx]

theorem takeWhile_ne_nl :
    ∀ (xs ys : List Char), (∀ c ∈ xs, c ≠ '\n') →
      ((xs ++ '\n' :: ys).takeWhile (fun c => c != '\n')) = xs := by
  intro xs
  induction xs with
  | nil =>
    intro ys hx
    simp [List.takeWhile_cons]
  | cons c t ih =>
    intro ys hx
    rw [List.cons_append, List.takeWhile_cons]
    have hc : (c != '\n') = true := by
      have := hx c (by simp)
      simpa [bne_iff_ne] using this
    rw [hc]
    simp only [if_true]
    rw [ih ys (fun c' hc' => hx c' (by simp [hc']))]

/-- The regex `/^(#{1,6})\s+([^\n]+)\n?/` on markdown of the shape
`\x7b L hashes\x7d space key newline rest` (key non-empty, trim-normalized,
newline-free) captures level `L` and text `key`, consuming the whole
heading line including its newline. -/
theorem parseLeadingHeading_shaped (L : Nat) (kcs rcs : List Char)
    (hL1 : 1 ≤ L) (hL6 : L ≤ 6) (hk0 : kcs ≠ [])
    (hk1 : trimCharsList kcs = kcs) (hk3 : '\n' ∉ kcs) :
    parseLeadingHeading (String.mk (List.replicate L '#' ++ ' ' :: (kcs ++ '\n' :: rcs))) =
      some ⟨L, String.mk kcs, List.replicate L '#' ++ ' ' :: (kcs ++ '\n' :: rcs),
        L + 1 + kcs.length + 1⟩ := by
  obtain ⟨c0, k', hkcs⟩ : ∃ c0 k', kcs = c0 :: k' := by
    cases kcs with
    | nil => exact absurd rfl hk0
    | cons a b => exact ⟨a, b, rfl⟩
  have hc0ws : isJsWs c0 = false := by
    rw [hkcs] at hk1
    exact head_not_ws_of_trimFixed c0 k' hk1
  have hc0nl : (c0 != '\n') = true := by
    rw [bne_iff_ne]
    intro heq
    rw [heq] at hc0ws
    simp [isJsWs] at hc0ws
  have etl : (String.mk (List.replicate L '#' ++ ' ' :: (kcs ++ '\n' :: rcs))).toList =
      List.replicate L '#' ++ ' ' :: (kcs ++ '\n' :: rcs) := rfl
  have e_drop : (List.replicate L '#' ++ ' ' :: (kcs ++ '\n' :: rcs)).dropWhile isJsWs =
      List.replicate L '#' ++ ' ' :: (kcs ++ '\n' :: rcs) := by
    obtain ⟨L', rfl⟩ : ∃ L', L = L' + 1 := ⟨L - 1, by omega⟩
    rw [List.replicate_succ, List.cons_append, List.dropWhile_cons]
    simp [isJsWs]
  have e_take : (List.replicate L '#' ++ ' ' :: (kcs ++ '\n' :: rcs)).takeWhile
      (fun c => c == '#') = List.replicate L '#' := by
    apply takeWhile_replicate_stop '#' (fun c => c == '#') (by simp)
    intro c hc
    simp at hc
    rw [← hc]
    simp
  have e_restdrop : (List.replicate L '#' ++ ' ' :: (kcs ++ '\n' :: rcs)).drop L =
      ' ' :: (kcs ++ '\n' :: rcs) := by
    have := List.drop_left (List.replicate L '#') (' ' :: (kcs ++ '\n' :: rcs))
    rwa [List.length_replicate] at this
  have e_tw : (' ' :: (kcs ++ '\n' :: rcs)).takeWhile isJsWs = [' '] := by
    rw [List.takeWhile_cons]
    have hsp : isJsWs ' ' = true := by simp [isJsWs]
    rw [hsp]
    simp only [if_true]
    rw [hkcs, List.cons_append, List.takeWhile_cons, hc0ws]
    simp
  have e_back : regexBacktrack (' ' :: (kcs ++ '\n' :: rcs)) 1 = some 1 := by
    unfold regexBacktrack
    rw [hkcs]
    simp [hc0nl]
  have e_text : ((' ' :: (kcs ++ '\n' :: rcs)).drop 1).takeWhile (fun c => c != '\n') = kcs := by
    simp only [List.drop_succ_cons, List.drop_zero]
    apply takeWhile_ne_nl
    intro c hc heq
    rw [heq] at hc
    exact hk3 hc
  have e_after : ((' ' :: (kcs ++ '\n' :: rcs)).drop 1).drop kcs.length = '\n' :: rcs := by
    simp only [List.drop_succ_cons, List.drop_zero]
    exact List.drop_left kcs ('\n' :: rcs)
  simp only [parseLeadingHeading]
  rw [etl, e_drop, e_take, List.length_replicate]
  rw [if_pos ⟨hL1, hL6⟩]
  rw [e_restdrop, e_tw]
  simp only [List.length_cons, List.length_nil, Nat.zero_add]
  rw [e_back]
  simp only []
  rw [e_text, e_after]
  simp only [List.head?_cons]
  rw [hk1]
  simp

/-- `stripMatchingHeading` on a leading heading line: the line is removed
(with the following run of newlines) exactly when both the level and the
trimmed text equal the matched heading's; any level or text mismatch
leaves the markdown unchanged. -/
theorem stripMatchingHeading_shaped (L : Nat) (kcs rcs : List Char)
    (hL1 : 1 ≤ L) (hL6 : L ≤ 6) (hk0 : kcs ≠ [])
    (hk1 : trimCharsList kcs = kcs) (hk3 : '\n' ∉ kcs) :
    stripMatchingHeading (String.mk (List.replicate L '#' ++ ' ' :: (kcs ++ '\n' :: rcs)))
        (String.mk kcs) L = String.mk (rcs.dropWhile (fun c => c == '\n')) ∧
    (∀ L', L' ≠ L →
      stripMatchingHeading (String.mk (List.replicate L '#' ++ ' ' :: (kcs ++ '\n' :: rcs)))
          (String.mk kcs) L' =
        String.mk (List.replicate L '#' ++ ' ' :: (kcs ++ '\n' :: rcs))) ∧
    (∀ key' : String, key' ≠ String.mk kcs →
      stripMatchingHeading (String.mk (List.replicate L '#' ++ ' ' :: (kcs ++ '\n' :: rcs)))
          key' L =
        String.mk (List.replicate L '#' ++ ' ' :: (kcs ++ '\n' :: rcs))) := by
  have hp := parseLeadingHeading_shaped L kcs rcs hL1 hL6 hk0 hk1 hk3
  have e_drop2 : (List.replicate L '#' ++ ' ' :: (kcs ++ '\n' :: rcs)).drop
      (L + 1 + kcs.length + 1) = rcs := by
    have hsh : List.replicate L '#' ++ ' ' :: (kcs ++ '\n' :: rcs) =
        (List.replicate L '#' ++ ' ' :: (kcs ++ ['\n'])) ++ rcs := by
      simp
    rw [hsh]
    have hlen : (List.replicate L '#' ++ ' ' :: (kcs ++ ['\n'])).length =
        L + 1 + kcs.length + 1 := by
      simp [List.length_replicate]
      omega
    rw [← hlen, List.drop_left]
  refine ⟨?_, ?_, ?_⟩
  · simp only [stripMatchingHeading, hp]
    simp [e_drop2]
  · intro L' hL'
    have hbeq : (L == L') = false := beq_eq_false_iff_ne.mpr (fun he => hL' he.symm)
    simp only [stripMatchingHeading, hp]
    simp [hbeq]
  · intro key' hkey'
    have hbeq : (String.mk kcs == key') = false :=
      beq_eq_false_iff_ne.mpr (fun he => hkey' he.symm)
    simp only [stripMatchingHeading, hp]
    simp [hbeq]

/-- C3: for a `replace_section_by_heading` whose heading key resolves and
whose content is non-empty, the engine replaces exactly the section body —
from the end of the matched heading node to the next heading of level at
most the target level (or the document end) — leaving the heading itself
(and everything before it and from the next heading on) in place, after
stripping a leading heading line from the content exactly when its level
and trimmed text equal the matched heading's; a missing heading reports
`Heading not found`, missing content reports `Missing markdown in op`,
both without mutation. -/
theorem spec_c3 (d : List Block) (h md : String) (lvl : Option Nat) (kt : String)
    (hkey : headingKey (some h) = some kt) :
    (∀ tgt rest, findFrom (readHeadings d) (matchesOp kt lvl) = some (tgt, rest) →
      isNonEmptyString (some md) = true →
      ∃ pre lv tx body tail,
        d = pre ++ Block.heading lv tx :: (body ++ tail) ∧
        trimChars tx = kt ∧
        (∀ l, lvl = some l → lv = l) ∧
        (∀ lv' tx', Block.heading lv' tx' ∈ body → ¬ lv' ≤ lvl.getD lv) ∧
        (tail = [] ∨ ∃ lv2 tx2 tail', tail = Block.heading lv2 tx2 :: tail' ∧
          lv2 ≤ lvl.getD lv) ∧
        applyAiOps realSurface d [⟨"replace_section_by_heading", some h, none, lvl, some md⟩] =
          ⟨pre ++ Block.heading lv tx ::
            (parseMarkdown (stripMatchingHeading md kt (lvl.getD lv)) ++ tail), 1, []⟩) ∧
    (findFrom (readHeadings d) (matchesOp kt lvl) = none →
      applyAiOps realSurface d [⟨"replace_section_by_heading", some h, none, lvl, some md⟩] =
        ⟨d, 0, ["Heading not found: " ++ kt]⟩) ∧
    (∀ tgt rest, findFrom (readHeadings d) (matchesOp kt lvl) = some (tgt, rest) →
      isNonEmptyString (some md) = false →
      applyAiOps realSurface d [⟨"replace_section_by_heading", some h, none, lvl, some md⟩] =
        ⟨d, 0, ["Missing markdown in op"]⟩) ∧
    (∀ (L : Nat) (kcs rcs : List Char), 1 ≤ L → L ≤ 6 → kcs ≠ [] →
      trimCharsList kcs = kcs → '\n' ∉ kcs →
      stripMatchingHeading (String.mk (List.replicate L '#' ++ ' ' :: (kcs ++ '\n' :: rcs)))
          (String.mk kcs) L = String.mk (rcs.dropWhile (fun c => c == '\n')) ∧
      (∀ L', L' ≠ L →
        stripMatchingHeading (String.mk (List.replicate L '#' ++ ' ' :: (kcs ++ '\n' :: rcs)))
            (String.mk kcs) L' =
          String.mk (List.replicate L '#' ++ ' ' :: (kcs ++ '\n' :: rcs))) ∧
      (∀ key' : String, key' ≠ String.mk kcs →
        stripMatchingHeading (String.mk (List.replicate L '#' ++ ' ' :: (kcs ++ '\n' :: rcs)))
            key' L =
          String.mk (List.replicate L '#' ++ ' ' :: (kcs ++ '\n' :: rcs)))) := by
  have h0 : applyAiOps realSurface d [⟨"replace_section_by_heading", some h, none, lvl, some md⟩] =
      applyOne realSurface ⟨d, 0, []⟩
        ⟨"replace_section_by_heading", some h, none, lvl, some md⟩ := rfl
  refine ⟨?_, ?_, ?_, ?_⟩
  · intro tgt rest hfind hmd
    have happ := applyOne_replace_found realSurface ⟨d, 0, []⟩ h md lvl kt tgt rest hkey hfind hmd
    obtain ⟨pre, lv, tx, post, hd, htgt, hrest, hptgt, hpre⟩ :=
      findFrom_locate (matchesOp kt lvl) d 0 tgt rest hfind
    have hlv : tgt.level = lv := by rw [htgt]
    have hpos : tgt.pos = sizeSum pre := by rw [htgt]; simp
    have hsz : tgt.nodeSize = tx.length + 2 := by rw [htgt]
    have htrim : trimChars tx = kt := by
      have hm := hptgt
      rw [matchesOp.eq_def] at hm
      simp only [Bool.and_eq_true, beq_iff_eq] at hm
      have heq : tgt.text = kt := hm.1
      rw [htgt] at heq
      simpa using heq
    have hlvl : ∀ l, lvl = some l → lv = l := by
      intro l hl
      have hm := hptgt
      rw [matchesOp.eq_def, hl] at hm
      simp only [Bool.and_eq_true, beq_iff_eq] at hm
      rw [← hlv]
      exact hm.2
    have hgd : lvl.getD tgt.level = lvl.getD lv := by rw [hlv]
    have hd2 : d = (pre ++ [Block.heading lv tx]) ++ post := by rw [hd]; simp
    have hfrom : tgt.pos + tgt.nodeSize = sizeSum (pre ++ [Block.heading lv tx]) := by
      rw [hpos, hsz, sizeSum_append]
      simp [sizeSum, Block.nodeSize]
    have e1 : takeToPos d (tgt.pos + tgt.nodeSize) = pre ++ [Block.heading lv tx] := by
      rw [hfrom]
      conv_lhs => rw [hd2]
      rw [takeToPos_append]
    cases hnext : rest.find? (fun e => decide (e.level ≤ lvl.getD tgt.level)) with
    | none =>
      refine ⟨pre, lv, tx, post, [], by rw [hd]; simp, htrim, hlvl, ?_, Or.inl rfl, ?_⟩
      · intro lv' tx' hmem hle
        obtain ⟨e, he, helv, _⟩ := heading_mem_readHeadingsAux lv' tx' post
          (0 + sizeSum pre + (tx.length + 2)) hmem
        have hnot := List.find?_eq_none.mp hnext e (by rw [hrest]; exact he)
        simp only [decide_eq_true_eq] at hnot
        rw [helv, hgd] at hnot
        exact hnot hle
      · rw [h0, happ, hnext]
        have e2 : dropToPos (⟨d, 0, []⟩ : OpState).doc (sizeSum (⟨d, 0, []⟩ : OpState).doc)
            = [] := dropToPos_all d
        rw [show (⟨d, 0, []⟩ : OpState).doc = d from rfl] at e2 ⊢
        rw [applyMarkdownAtRange_real, replaceRange, e1, e2, hgd]
        simp
    | some n =>
      have hfr : ∃ rest2,
          findFrom rest (fun e => decide (e.level ≤ lvl.getD tgt.level)) = some (n, rest2) := by
        have heq := find?_eq_findFrom rest (fun e => decide (e.level ≤ lvl.getD tgt.level))
        rw [hnext] at heq
        cases hF : findFrom rest (fun e => decide (e.level ≤ lvl.getD tgt.level)) with
        | none => rw [hF] at heq; simp at heq
        | some pr =>
          obtain ⟨n', rest2⟩ := pr
          rw [hF] at heq
          simp at heq
          subst heq
          exact ⟨rest2, rfl⟩
      obtain ⟨rest2, hfr⟩ := hfr
      rw [hrest] at hfr
      obtain ⟨mid, lv2, tx2, tail', hpost, hn, hrest2, hpn, hmid⟩ :=
        findFrom_locate (fun e => decide (e.level ≤ lvl.getD tgt.level)) post
          (0 + sizeSum pre + (tx.length + 2)) n rest2 hfr
      have hlv2 : n.level = lv2 := by rw [hn]
      have hlv2le : lv2 ≤ lvl.getD lv := by
        have := hpn
        simp only [decide_eq_true_eq] at this
        rw [hlv2, hgd] at this
        exact this
      have hnpos : n.pos = sizeSum (pre ++ Block.heading lv tx :: mid) := by
        rw [hn, sizeSum_append]
        simp [sizeSum, Block.nodeSize]
        omega
      have hdsplit : d = (pre ++ Block.heading lv tx :: mid) ++ (Block.heading lv2 tx2 :: tail') := by
        rw [hd, hpost]; simp
      have e2 : dropToPos d n.pos = Block.heading lv2 tx2 :: tail' := by
        rw [hnpos]
        conv_lhs => rw [hdsplit]
        rw [dropToPos_append]
      refine ⟨pre, lv, tx, mid, Block.heading lv2 tx2 :: tail',
        by rw [hd, hpost], htrim, hlvl, ?_, Or.inr ⟨lv2, tx2, tail', rfl, hlv2le⟩, ?_⟩
      · intro lv' tx' hmem hle
        obtain ⟨e, he, helv, _⟩ := heading_mem_readHeadingsAux lv' tx' mid
          (0 + sizeSum pre + (tx.length + 2)) hmem
        have hnot := hmid e he
        simp only [decide_eq_false_iff_not] at hnot
        rw [helv, hgd] at hnot
        exact hnot hle
      · rw [h0, happ, hnext]
        rw [show (⟨d, 0, []⟩ : OpState).doc = d from rfl]
        rw [applyMarkdownAtRange_real, replaceRange, e1, e2, hgd]
        simp
  · intro hnone
    have e := applyOne_replace_notfound realSurface ⟨d, 0, []⟩ h lvl (some md) kt hkey hnone
    rw [h0, e]
    rfl
  · intro tgt rest hfind hmdf
    have e := applyOne_replace_nomd realSurface ⟨d, 0, []⟩ h lvl (some md) kt tgt rest
      hkey hfind hmdf
    rw [h0, e]
    rfl
  · intro L kcs rcs hL1 hL6 hk0 hk1 hk3
    exact stripMatchingHeading_shaped L kcs rcs hL1 hL6 hk0 hk1 hk3

/-- C3, witness: replacing the `Risks` section of a concrete document,
with content that begins with a duplicate `## Risks` heading line. -/
theorem spec_c3_witness :
    isNonEmptyString (some "## Risks\nnew body") = true ∧
    ∃ pre lv tx body tail,
      ([Block.heading 2 "Overview", Block.paragraph "x", Block.heading 2 "Risks",
        Block.paragraph "old", Block.heading 2 "Next"] : List Block) =
        pre ++ Block.heading lv tx :: (body ++ tail) ∧
      trimChars tx = "Risks" ∧
      (∀ l, (none : Option Nat) = some l → lv = l) ∧
      (∀ lv' tx', Block.heading lv' tx' ∈ body → ¬ lv' ≤ (none : Option Nat).getD lv) ∧
      (tail = [] ∨ ∃ lv2 tx2 tail', tail = Block.heading lv2 tx2 :: tail' ∧
        lv2 ≤ (none : Option Nat).getD lv) ∧
      applyAiOps realSurface
        [Block.heading 2 "Overview", Block.paragraph "x", Block.heading 2 "Risks",
         Block.paragraph "old", Block.heading 2 "Next"]
        [⟨"replace_section_by_heading", some "Risks", none, none, some "## Risks\nnew body"⟩] =
        ⟨pre ++ Block.heading lv tx ::
          (parseMarkdown (stripMatchingHeading "## Risks\nnew body" "Risks"
            ((none : Option Nat).getD lv)) ++ tail), 1, []⟩ :=
  ⟨by decide,
    (spec_c3 [Block.heading 2 "Overview", Block.paragraph "x", Block.heading 2 "Risks",
        Block.paragraph "old", Block.heading 2 "Next"]
      "Risks" "## Risks\nnew body" none "Risks" (by decide)).1
      ⟨13, 2, "Risks", 7⟩ [⟨25, 2, "Next", 6⟩] (by decide) (by decide)⟩
